import Mathlib

/-!
Verification of the TCF v2.x consent-string decoder (go-gdpr, package
`vendorconsent/tcf2`) against its natural-language specification.

The Go sources under `src/vendorconsent/tcf2/consent.go` provide
`ParseString`, `Parse`, `parseCoreAndDisclosedVendors`, `decodeSegment`,
`getSegmentType` and `parseDisclosedVendorsSegment`; these are embedded
faithfully below.  Helpers that the repository keeps in other packages
(`bitutils`, the metadata/bit-field/range-section/publisher-restriction
decoders and the query facade) are modelled from the specification, as
marked on each definition.  Errors are collapsed to `none`: the spec and
the claims only distinguish success from failure of a parse.
-/

namespace GoGdpr

/-- Byte buffers are lists of naturals; every byte produced by the base64
decoder is below 256. -/
abbrev Bytes := List Nat

/-- Modelled from the spec (§4.1 Bit Reader): test the single bit at a
0-based offset, most-significant bit of each byte first.  Mirrors the Go
helper `isSet(data, bit)` used by `Parse` and
`parseDisclosedVendorsSegment`. -/
def isSet (data : Bytes) (bit : Nat) : Bool :=
  (data.getD (bit / 8) 0) / 2 ^ (7 - bit % 8) % 2 == 1

/-- Modelled from the spec (§4.1): the value of `width` consecutive bits
starting at `offset`, MSB first across byte boundaries.  Total; bounds are
checked by `parseBits`. -/
def readBits (data : Bytes) (offset width : Nat) : Nat :=
  (List.range width).foldl (fun acc i => 2 * acc + if isSet data (offset + i) then 1 else 0) 0

/-- Modelled from the spec (§4.1): the `bitutils` readers
(`ParseUInt16`, `ParseByte8`, ...) missing from src/ — extract a
`width`-bit unsigned integer, failing with `OutOfRange` (here `none`)
when `offset + width` exceeds the buffer's bit length. -/
def parseBits (data : Bytes) (offset width : Nat) : Option Nat :=
  if offset + width ≤ 8 * data.length then some (readBits data offset width) else none

/-- Modelled from the spec (§3 VendorSet): the two interchangeable
vendor-set representations behind the `vendorConsentsResolver`
interface. -/
inductive VendorResolver where
  | bitField (maxID : Nat) (bitmap : List Bool)
  | rangeSection (maxID : Nat) (ranges : List (Nat × Nat))
deriving DecidableEq, Repr

/-- Modelled from the spec (§3): the recorded maximum vendor ID. -/
def VendorResolver.maxID : VendorResolver → Nat
  | .bitField m _ => m
  | .rangeSection m _ => m

/-- Modelled from the spec (§3): membership.  IDs below 1 or above
`maxID` are defined to be absent; a range section is scanned linearly
(ranges need not be sorted or disjoint). -/
def VendorResolver.contains : VendorResolver → Nat → Bool
  | .bitField m bitmap, id => 1 ≤ id && id ≤ m && bitmap.getD (id - 1) false
  | .rangeSection m ranges, id =>
      1 ≤ id && id ≤ m && ranges.any (fun r => r.1 ≤ id && id ≤ r.2)

/-- Modelled from the spec (§3/§4.4): one publisher restriction entry. -/
structure PubRestriction where
  purposeID : Nat
  restrictionType : Nat
  ranges : List (Nat × Nat)
deriving DecidableEq, Repr

/-- The `ConsentMetadata` value built by the decoder: fixed header fields
plus the vendor sets and the optional disclosed-vendors segment.  Field
names follow the Go struct; fields not read from the header are the Go
zero values until `Parse` / `parseCoreAndDisclosedVendors` fill them. -/
structure ConsentMetadata where
  data : Bytes
  version : Nat
  created : Nat
  lastUpdated : Nat
  cmpID : Nat
  cmpVersion : Nat
  consentScreen : Nat
  consentLanguage : Nat
  vendorListVersion : Nat
  tcfPolicyVersion : Nat
  purposesConsent : Nat
  maxVendorID : Nat
  vendorConsents : Option VendorResolver := none
  vendorLegitimateInterestStart : Nat := 0
  vendorLegitimateInterests : Option VendorResolver := none
  pubRestrictionsStart : Nat := 0
  publisherRestrictions : List PubRestriction := []
  disclosedVendors : Option VendorResolver := none
  hasDisclosedVendors : Bool := false
deriving DecidableEq, Repr

/-- Modelled from the spec (§4.3 Header Decoder): `parseMetadata`,
missing from src/.  Fails when the buffer is shorter than the guaranteed
minimum header (the Go comment in `Parse` records "at least 29*8=232
bits"), otherwise reads the fixed-layout header fields.  Bit offsets
follow the IAB TCF v2 core-string layout that the repository's test
fixtures decode under (publisher country code is two 6-bit characters at
[201:213), so `maxVendorID` occupies [213:229) and the encoding-type bit
is bit 229, matching the comment in `Parse`). -/
def parseMetadata (data : Bytes) : Option ConsentMetadata :=
  if data.length < 29 then none
  else some
    { data := data
      version := readBits data 0 6
      created := readBits data 6 36
      lastUpdated := readBits data 42 36
      cmpID := readBits data 78 12
      cmpVersion := readBits data 90 12
      consentScreen := readBits data 102 6
      consentLanguage := readBits data 108 12
      vendorListVersion := readBits data 120 12
      tcfPolicyVersion := readBits data 132 6
      purposesConsent := readBits data 152 24
      maxVendorID := readBits data 213 16 }

/-- Modelled from the spec (§4.2): BitField decode — reads exactly
`maxVendorID` bits starting at `startBit`, one per vendor ID in ascending
order; returns the set and `startBit + maxVendorID`; fails when the
buffer lacks enough bits. -/
def parseBitField (data : Bytes) (maxVendorID startBit : Nat) :
    Option (VendorResolver × Nat) :=
  if startBit + maxVendorID ≤ 8 * data.length then
    some (.bitField maxVendorID ((List.range maxVendorID).map fun i => isSet data (startBit + i)),
          startBit + maxVendorID)
  else none

/-- Modelled from the spec (§4.2): the per-range grammar shared by
RangeSection and publisher restrictions — a 1-bit is-range flag, then one
or two 16-bit vendor IDs; a single ID becomes a range of length 1. -/
def parseRangeEntries (data : Bytes) : Nat → Nat → Option (List (Nat × Nat) × Nat)
  | 0, offset => some ([], offset)
  | n + 1, offset =>
    match parseBits data offset 1 with
    | none => none
    | some flag =>
      if flag = 1 then
        match parseBits data (offset + 1) 16, parseBits data (offset + 17) 16 with
        | some startID, some endID =>
          match parseRangeEntries data n (offset + 33) with
          | some (rest, fin) => some ((startID, endID) :: rest, fin)
          | none => none
        | _, _ => none
      else
        match parseBits data (offset + 1) 16 with
        | some vendorID =>
          match parseRangeEntries data n (offset + 17) with
          | some (rest, fin) => some ((vendorID, vendorID) :: rest, fin)
          | none => none
        | none => none

/-- Modelled from the spec (§4.2): RangeSection decode — a 12-bit range
count then that many range entries; `maxVendorID` is recorded as given;
fails on insufficient bits; does not validate range contents. -/
def parseRangeSection (data : Bytes) (maxVendorID startBit : Nat) :
    Option (VendorResolver × Nat) :=
  match parseBits data startBit 12 with
  | none => none
  | some numRanges =>
    match parseRangeEntries data numRanges (startBit + 12) with
    | some (ranges, fin) => some (.rangeSection maxVendorID ranges, fin)
    | none => none

/-- Modelled from the spec (§4.4): publisher-restriction entries — 6-bit
purpose ID, 2-bit restriction type, then a range list with the §4.2
grammar (12-bit count, no leading encoding bit). -/
def parsePubEntries (data : Bytes) : Nat → Nat → Option (List PubRestriction × Nat)
  | 0, offset => some ([], offset)
  | n + 1, offset =>
    match parseBits data offset 6, parseBits data (offset + 6) 2 with
    | some purposeID, some restrictionType =>
      match parseBits data (offset + 8) 12 with
      | none => none
      | some numRanges =>
        match parseRangeEntries data numRanges (offset + 20) with
        | none => none
        | some (ranges, offset2) =>
          match parsePubEntries data n offset2 with
          | some (rest, fin) => some (⟨purposeID, restrictionType, ranges⟩ :: rest, fin)
          | none => none
    | _, _ => none

/-- Modelled from the spec (§4.4): `parsePubRestriction` — a 12-bit
restriction count then that many entries; returns the list and the final
bit offset. -/
def parsePubRestriction (data : Bytes) (startBit : Nat) :
    Option (List PubRestriction × Nat) :=
  match parseBits data startBit 12 with
  | none => none
  | some numRestrictions => parsePubEntries data numRestrictions (startBit + 12)

/-- Embedding of `Parse` (src/vendorconsent/tcf2/consent.go, lines
43–95): parse the decoded Core String bytes — header metadata, then the
vendor-consent set chosen by bit 229 and decoded from bit 230, then the
16-bit legitimate-interest max vendor ID, its encoding bit and set, then
the publisher restrictions. -/
def Parse (data : Bytes) : Option ConsentMetadata :=
  match parseMetadata data with
  | none => none
  | some metadata =>
    match (if isSet data 229 then parseRangeSection data metadata.maxVendorID 230
           else parseBitField data metadata.maxVendorID 230) with
    | none => none
    | some (vendorConsents, legitIntStart) =>
      match parseBits data legitIntStart 16 with
      | none => none
      | some legIntMaxVend =>
        if 8 * data.length ≤ legitIntStart + 16 then none
        else
          match (if isSet data (legitIntStart + 16) then
                   parseRangeSection data legIntMaxVend (legitIntStart + 17)
                 else parseBitField data legIntMaxVend (legitIntStart + 17)) with
          | none => none
          | some (vendorLegitInts, pubRestrictsStart) =>
            match parsePubRestriction data pubRestrictsStart with
            | none => none
            | some (pubRestrictions, _) =>
              some { metadata with
                     vendorConsents := some vendorConsents
                     vendorLegitimateInterestStart := legitIntStart + 17
                     vendorLegitimateInterests := some vendorLegitInts
                     pubRestrictionsStart := pubRestrictsStart
                     publisherRestrictions := pubRestrictions }

/-- Modelled from the spec (§1/§6, external collaborator): the 6-bit
value of one base64url alphabet character, `none` for a character outside
the alphabet. -/
def b64Val (c : Char) : Option Nat :=
  if 'A' ≤ c ∧ c ≤ 'Z' then some (c.toNat - 65)
  else if 'a' ≤ c ∧ c ≤ 'z' then some (c.toNat - 71)
  else if '0' ≤ c ∧ c ≤ '9' then some (c.toNat + 4)
  else if c = '-' then some 62
  else if c = '_' then some 63
  else none

/-- Modelled from the spec (§1/§6, external collaborator): raw (unpadded)
base64url decoding, as performed by Go's
`base64.RawURLEncoding.Decode` — 4 characters per 3 bytes, a trailing
group of 2 or 3 characters yielding 1 or 2 bytes, a trailing group of 1
character invalid.  (Go's decoder also skips CR/LF characters inside the
input; that lenience is not modelled.) -/
def decode64 : List Char → Option Bytes
  | [] => some []
  | [_] => none
  | [a, b] =>
    match b64Val a, b64Val b with
    | some va, some vb => some [va * 4 + vb / 16]
    | _, _ => none
  | [a, b, c] =>
    match b64Val a, b64Val b, b64Val c with
    | some va, some vb, some vc => some [va * 4 + vb / 16, vb % 16 * 16 + vc / 4]
    | _, _, _ => none
  | a :: b :: c :: d :: rest =>
    match b64Val a, b64Val b, b64Val c, b64Val d with
    | some va, some vb, some vc, some vd =>
      match decode64 rest with
      | some bs => some ((va * 4 + vb / 16) :: (vb % 16 * 16 + vc / 4) :: (vc % 4 * 64 + vd) :: bs)
      | none => none
    | _, _, _, _ => none

/-- Embedding of `decodeSegment` (src, lines 153–166): an empty segment
string is an error; otherwise the segment is base64url-decoded. -/
def decodeSegment (segmentString : List Char) : Option Bytes :=
  if segmentString.isEmpty then none else decode64 segmentString

/-- Embedding of `getSegmentType` (src, lines 169–176): the top 3 bits of
the first byte; an empty buffer is an error. -/
def getSegmentType (data : Bytes) : Option Nat :=
  match data with
  | [] => none
  | b :: _ => some (b / 32)

/-- Embedding of `parseDisclosedVendorsSegment` (src, lines 340–385):
reject a buffer of fewer than 3 bytes, re-validate the 3-bit type tag
equals 1, read the 16-bit max vendor ID at bit 3, dispatch on the
encoding bit 19 and decode the vendor set from bit 20. -/
def parseDisclosedVendorsSegment (data : Bytes) : Option VendorResolver :=
  if data.length = 0 then none
  else if data.length < 3 then none
  else
    match parseBits data 0 8 with
    | none => none
    | some byte0 =>
      if byte0 / 32 ≠ 1 then none
      else
        match parseBits data 3 16 with
        | none => none
        | some maxVendorID =>
          if isSet data 19 then
            match parseRangeSection data maxVendorID 20 with
            | some (resolver, _) => some resolver
            | none => none
          else
            match parseBitField data maxVendorID 20 with
            | some (resolver, _) => some resolver
            | none => none

/-- Embedding of Go's `strings.Split(consent, ".")`: split into the
(always non-empty) list of `'.'`-separated segments, keeping empty
segments. -/
def splitSeg : List Char → List (List Char)
  | [] => [[]]
  | c :: rest =>
    if c = '.' then [] :: splitSeg rest
    else
      match splitSeg rest with
      | [] => [[c]]
      | s :: ss => (c :: s) :: ss

/-- Embedding of the trailing-segment loop of
`parseCoreAndDisclosedVendors` (src, lines 118–142): skip empty
segments; decode each non-empty one and read its type tag, aborting the
parse on failure; on the first tag-1 segment record the disclosed-vendors
set (aborting if it fails to parse) and stop scanning. -/
def findDisclosed (metadata : ConsentMetadata) : List (List Char) → Option ConsentMetadata
  | [] => some metadata
  | segment :: rest =>
    if segment.isEmpty then findDisclosed metadata rest
    else
      match decodeSegment segment with
      | none => none
      | some decoded =>
        match getSegmentType decoded with
        | none => none
        | some segmentType =>
          if segmentType = 1 then
            match parseDisclosedVendorsSegment decoded with
            | none => none
            | some dv =>
              some { metadata with disclosedVendors := some dv, hasDisclosedVendors := true }
          else findDisclosed metadata rest

/-- Embedding of `parseCoreAndDisclosedVendors` (src, lines 97–145):
split on `'.'`, decode and parse the first segment as the Core String,
then scan the remaining segments for a Disclosed-Vendors segment. -/
def parseCoreAndDisclosedVendors (consent : List Char) : Option ConsentMetadata :=
  match splitSeg consent with
  | [] => none
  | core :: rest =>
    match decodeSegment core with
    | none => none
    | some coreDecoded =>
      match Parse coreDecoded with
      | none => none
      | some metadata => findDisclosed metadata rest

/-- Embedding of `ParseString` (src, lines 28–39): reject the empty
string, then delegate to `parseCoreAndDisclosedVendors`. -/
def ParseString (consent : List Char) : Option ConsentMetadata :=
  if consent.isEmpty then none else parseCoreAndDisclosedVendors consent

/-- Modelled from the spec (§4.7 facade): `VendorListVersion()` accessor,
missing from src/. -/
def VendorListVersion (m : ConsentMetadata) : Nat := m.vendorListVersion

/-- Modelled from the spec (§4.7 facade): `HasDisclosedVendors()` — true
iff a type-1 segment was successfully decoded. -/
def HasDisclosedVendors (m : ConsentMetadata) : Bool := m.hasDisclosedVendors

/-- Modelled from the spec (§4.7 facade): `VendorDisclosed(id)` — false
whenever no Disclosed-Vendors segment was present, otherwise membership
in the recorded vendor set. -/
def VendorDisclosed (m : ConsentMetadata) (id : Nat) : Bool :=
  match m.disclosedVendors with
  | some resolver => resolver.contains id
  | none => false

/-- Modelled from the spec (§4.7 facade): `VendorDisclosedMaxVendorId()`
— 0 when no Disclosed-Vendors segment was present. -/
def VendorDisclosedMaxVendorId (m : ConsentMetadata) : Nat :=
  match m.disclosedVendors with
  | some resolver => resolver.maxID
  | none => 0

/-- A list of trailing segments the scan passes over without recording
anything: each is empty, or decodes successfully to a segment whose type
tag is not 1. -/
def skippable (segs : List (List Char)) : Prop :=
  ∀ seg ∈ segs,
    seg = [] ∨ ∃ b t, decodeSegment seg = some b ∧ getSegmentType b = some t ∧ t ≠ 1

/-! Concrete fixtures, taken from the repository's own tests
(`consent_test.go`): two valid Core Strings, the two Disclosed-Vendors
segments (base64url of `0x20 0x01 0x4a 0x80` and of
`0x20 0x03 0x4a 0x80 0x20 0x80 0x50 0x9f`), and the minimal
Publisher-TC segment (base64url of `0x60 0x00 0x00`). -/

def sampleCore : List Char :=
  "COyiILmOyiILmADACHENAPCAAAAAAAAAAAAAE5QBgALgAqgD8AQACSwEygJyAAAAAA".toList

def sampleCore2 : List Char :=
  "COwGVJOOwGVJOADACHENAOCAAO6as_-AAAhoAFNLAAoAAAA".toList

def sampleDvSegment : List Char := "IAFKgA".toList

def sampleDvSegment2 : List Char := "IANKgCCAUJ8".toList

def samplePubSegment : List Char := "YAAA".toList

/-- The all-zero metadata value used as an `Option.getD` default when
naming concretely computed parse results. -/
def emptyMeta : ConsentMetadata :=
  { data := [], version := 0, created := 0, lastUpdated := 0, cmpID := 0, cmpVersion := 0,
    consentScreen := 0, consentLanguage := 0, vendorListVersion := 0, tcfPolicyVersion := 0,
    purposesConsent := 0, maxVendorID := 0 }

def sampleCoreBytes : Bytes := (decodeSegment sampleCore).getD []

def sampleCoreMeta : ConsentMetadata := (Parse sampleCoreBytes).getD emptyMeta

def sampleCore2Bytes : Bytes := (decodeSegment sampleCore2).getD []

def sampleCore2Meta : ConsentMetadata := (Parse sampleCore2Bytes).getD emptyMeta

def sampleDvBytes : Bytes := (decodeSegment sampleDvSegment).getD []

def sampleDvResolver : VendorResolver :=
  (parseDisclosedVendorsSegment sampleDvBytes).getD (.bitField 0 [])

def sampleDv2Bytes : Bytes := (decodeSegment sampleDvSegment2).getD []

def sampleDv2Resolver : VendorResolver :=
  (parseDisclosedVendorsSegment sampleDv2Bytes).getD (.bitField 0 [])

def samplePubBytes : Bytes := (decodeSegment samplePubSegment).getD []

def sampleFullMeta : ConsentMetadata :=
  (ParseString (sampleCore ++ '.' :: sampleDvSegment)).getD emptyMeta

/-! Helper lemmas about the embedding. -/

/-- Characters accepted by the base64url alphabet are not the segment
separator. -/
theorem b64Val_ne_dot (c : Char) (h : (b64Val c).isSome) : c ≠ '.' := by
  intro e
  subst e
  have : b64Val '.' = none := by decide
  rw [this] at h
  simp [Option.isSome] at h

/-- Successful base64url decoding implies the segment contains no
separator character. -/
theorem decode64_no_dot : ∀ s : List Char, (decode64 s).isSome → '.' ∉ s
  | [], _ => by simp
  | [a], h => by simp [decode64] at h
  | [a, b], h => by
    simp only [decode64] at h
    cases hva : b64Val a with
    | none => rw [hva] at h; simp at h
    | some va =>
      cases hvb : b64Val b with
      | none => rw [hva, hvb] at h; simp at h
      | some vb =>
        have ha := b64Val_ne_dot a (by rw [hva]; rfl)
        have hb := b64Val_ne_dot b (by rw [hvb]; rfl)
        simp [List.mem_cons, ha.symm, hb.symm]
  | [a, b, c], h => by
    simp only [decode64] at h
    cases hva : b64Val a with
    | none => rw [hva] at h; simp at h
    | some va =>
      cases hvb : b64Val b with
      | none => rw [hva, hvb] at h; simp at h
      | some vb =>
        cases hvc : b64Val c with
        | none => rw [hva, hvb, hvc] at h; simp at h
        | some vc =>
          have ha := b64Val_ne_dot a (by rw [hva]; rfl)
          have hb := b64Val_ne_dot b (by rw [hvb]; rfl)
          have hc := b64Val_ne_dot c (by rw [hvc]; rfl)
          simp [List.mem_cons, ha.symm, hb.symm, hc.symm]
  | a :: b :: c :: d :: rest, h => by
    simp only [decode64] at h
    cases hva : b64Val a with
    | none => rw [hva] at h; simp at h
    | some va =>
      cases hvb : b64Val b with
      | none => rw [hva, hvb] at h; simp at h
      | some vb =>
        cases hvc : b64Val c with
        | none => rw [hva, hvb, hvc] at h; simp at h
        | some vc =>
          cases hvd : b64Val d with
          | none => rw [hva, hvb, hvc, hvd] at h; simp at h
          | some vd =>
            rw [hva, hvb, hvc, hvd] at h
            have hrest : (decode64 rest).isSome := by
              cases hr : decode64 rest with
              | none => rw [hr] at h; simp at h
              | some bs => rfl
            have ha := b64Val_ne_dot a (by rw [hva]; rfl)
            have hb := b64Val_ne_dot b (by rw [hvb]; rfl)
            have hc := b64Val_ne_dot c (by rw [hvc]; rfl)
            have hd := b64Val_ne_dot d (by rw [hvd]; rfl)
            have ih := decode64_no_dot rest hrest
            simp [List.mem_cons, ha.symm, hb.symm, hc.symm, hd.symm, ih]

/-- Successful segment decoding implies the segment string is non-empty
and contains no separator character. -/
theorem decodeSegment_no_dot (s : List Char) (b : Bytes)
    (h : decodeSegment s = some b) : '.' ∉ s := by
  unfold decodeSegment at h
  split at h
  · exact absurd h (by simp)
  · exact decode64_no_dot s (by rw [h]; rfl)

/-- A successfully decoded segment is a non-empty string. -/
theorem decodeSegment_ne_nil (s : List Char) (b : Bytes)
    (h : decodeSegment s = some b) : s ≠ [] := by
  intro e
  subst e
  simp [decodeSegment] at h

/-- Unfolding of `splitSeg` on a head character that is not the
separator. -/
theorem splitSeg_cons_ne (c : Char) (rest : List Char) (hc : c ≠ '.') :
    splitSeg (c :: rest) =
      match splitSeg rest with
      | [] => [[c]]
      | s :: ss => (c :: s) :: ss := by
  rw [splitSeg, if_neg hc]

/-- Splitting on the separator never yields an empty list of segments. -/
theorem splitSeg_ne_nil : ∀ s : List Char, splitSeg s ≠ []
  | [] => by simp [splitSeg]
  | c :: rest => by
    by_cases hc : c = '.'
    · simp [splitSeg, hc]
    · rw [splitSeg_cons_ne c rest hc]
      cases h : splitSeg rest <;> simp

/-- Appending a trailing separator appends one empty segment to the
split. -/
theorem splitSeg_append_dot : ∀ s : List Char, splitSeg (s ++ ['.']) = splitSeg s ++ [[]]
  | [] => by simp [splitSeg]
  | c :: rest => by
    by_cases hc : c = '.'
    · simp [splitSeg, hc, splitSeg_append_dot rest]
    · rw [List.cons_append, splitSeg_cons_ne c (rest ++ ['.']) hc,
        splitSeg_append_dot rest, splitSeg_cons_ne c rest hc]
      cases h : splitSeg rest with
      | nil => exact absurd h (splitSeg_ne_nil rest)
      | cons s ss => simp

/-- A separator-free string splits into the single segment it is. -/
theorem splitSeg_no_dot : ∀ s : List Char, '.' ∉ s → splitSeg s = [s]
  | [], _ => rfl
  | c :: rest, h => by
    have hc : c ≠ '.' := by
      intro e
      exact h (by subst e; exact List.mem_cons_self _ _)
    have hr := splitSeg_no_dot rest (fun m => h (List.mem_cons_of_mem _ m))
    rw [splitSeg_cons_ne c rest hc, hr]

/-- Splitting a separator-free segment glued before a separator peels off
that segment. -/
theorem splitSeg_append_sep :
    ∀ s t : List Char, '.' ∉ s → splitSeg (s ++ '.' :: t) = s :: splitSeg t
  | [], t, _ => by simp [splitSeg]
  | c :: rest, t, h => by
    have hc : c ≠ '.' := by
      intro e
      exact h (by subst e; exact List.mem_cons_self _ _)
    have hr := splitSeg_append_sep rest t (fun m => h (List.mem_cons_of_mem _ m))
    rw [List.cons_append, splitSeg_cons_ne c (rest ++ '.' :: t) hc, hr]

/-- The trailing-segment scan ignores a final empty segment. -/
theorem findDisclosed_append_empty (metadata : ConsentMetadata) :
    ∀ l, findDisclosed metadata (l ++ [[]]) = findDisclosed metadata l
  | [] => by simp [findDisclosed]
  | seg :: rest => by
    simp only [List.cons_append, findDisclosed]
    by_cases hseg : seg.isEmpty
    · rw [if_pos hseg, if_pos hseg]
      exact findDisclosed_append_empty metadata rest
    · rw [if_neg hseg, if_neg hseg]
      rcases hd : decodeSegment seg with _ | decoded
      · simp only [hd]
      · simp only [hd]
        rcases ht : getSegmentType decoded with _ | segmentType
        · simp only [ht]
        · simp only [ht]
          by_cases h1 : segmentType = 1
          · rw [if_pos h1, if_pos h1]
          · rw [if_neg h1, if_neg h1]
            exact findDisclosed_append_empty metadata rest

/-- The trailing-segment scan passes over a skippable prefix without
changing its result. -/
theorem findDisclosed_skip (metadata : ConsentMetadata) :
    ∀ pre rest, skippable pre →
      findDisclosed metadata (pre ++ rest) = findDisclosed metadata rest
  | [], _, _ => rfl
  | seg :: pre, rest, h => by
    have htail : skippable pre := fun s hs => h s (List.mem_cons_of_mem _ hs)
    obtain hseg | ⟨b, t, hb, ht, hne⟩ := h seg (List.mem_cons_self _ _)
    · subst hseg
      simp only [List.cons_append, findDisclosed, List.isEmpty_nil, if_pos]
      exact findDisclosed_skip metadata pre rest htail
    · have hnonempty : seg.isEmpty = false := by
        simp [List.isEmpty_iff]
        exact decodeSegment_ne_nil seg b hb
      simp only [List.cons_append, findDisclosed, hnonempty, Bool.false_eq_true, if_false,
        hb, ht, if_neg hne]
      exact findDisclosed_skip metadata pre rest htail

/-- The trailing-segment scan records the vendor set of the first
successfully decoded type-1 segment and stops, regardless of what
follows. -/
theorem findDisclosed_found (metadata : ConsentMetadata) (d : List Char)
    (post : List (List Char)) (db : Bytes) (dv : VendorResolver)
    (hd : decodeSegment d = some db) (ht : getSegmentType db = some 1)
    (hdv : parseDisclosedVendorsSegment db = some dv) :
    findDisclosed metadata (d :: post) =
      some { metadata with disclosedVendors := some dv, hasDisclosedVendors := true } := by
  have hnonempty : d.isEmpty = false := by
    simp [List.isEmpty_iff]
    exact decodeSegment_ne_nil d db hd
  simp [findDisclosed, hnonempty, hd, ht, hdv]

/-- The trailing-segment scan aborts on a non-empty segment that fails
base64url decoding or decodes to too few bytes for a type tag. -/
theorem findDisclosed_bad (metadata : ConsentMetadata) (bad : List Char)
    (post : List (List Char)) (hbadne : bad ≠ [])
    (hbad : decodeSegment bad = none ∨
      ∃ b, decodeSegment bad = some b ∧ getSegmentType b = none) :
    findDisclosed metadata (bad :: post) = none := by
  have hnonempty : bad.isEmpty = false := by simpa [List.isEmpty_iff] using hbadne
  obtain h | ⟨b, hb, ht⟩ := hbad
  · simp [findDisclosed, hnonempty, h]
  · simp [findDisclosed, hnonempty, hb, ht]

/-- The fields of a freshly parsed header carry the Go zero values for
the disclosed-vendors data. -/
theorem parseMetadata_fields (data : Bytes) (md : ConsentMetadata)
    (h : parseMetadata data = some md) :
    md.disclosedVendors = none ∧ md.hasDisclosedVendors = false := by
  unfold parseMetadata at h
  split at h
  · exact absurd h (by simp)
  · cases Option.some.inj h
    exact ⟨rfl, rfl⟩

/-- Shape of every successful `Parse` result: the disclosed-vendors data
is still absent, and the vendor-consent set is the one chosen by bit 229
and decoded from bit 230. -/
theorem Parse_some (data : Bytes) (m : ConsentMetadata) (h : Parse data = some m) :
    m.disclosedVendors = none ∧ m.hasDisclosedVendors = false ∧
      ∃ r fin,
        (if isSet data 229 then parseRangeSection data m.maxVendorID 230
         else parseBitField data m.maxVendorID 230) = some (r, fin) ∧
        m.vendorConsents = some r := by
  unfold Parse at h
  rcases hmd : parseMetadata data with _ | metadata
  · simp only [hmd] at h; exact absurd h (by simp)
  · simp only [hmd] at h
    rcases hvc : (if isSet data 229 then parseRangeSection data metadata.maxVendorID 230
                  else parseBitField data metadata.maxVendorID 230) with _ | ⟨vc, li⟩
    · simp only [hvc] at h; exact absurd h (by simp)
    · simp only [hvc] at h
      rcases hli : parseBits data li 16 with _ | lmax
      · simp only [hli] at h; exact absurd h (by simp)
      · simp only [hli] at h
        by_cases hlen : 8 * data.length ≤ li + 16
        · rw [if_pos hlen] at h; exact absurd h (by simp)
        · rw [if_neg hlen] at h
          rcases hvl : (if isSet data (li + 16) then parseRangeSection data lmax (li + 17)
                        else parseBitField data lmax (li + 17)) with _ | ⟨vli, prs⟩
          · simp only [hvl] at h; exact absurd h (by simp)
          · simp only [hvl] at h
            rcases hpr : parsePubRestriction data prs with _ | ⟨prl, fin⟩
            · simp only [hpr] at h; exact absurd h (by simp)
            · simp only [hpr] at h
              cases Option.some.inj h
              obtain ⟨hdv, hhas⟩ := parseMetadata_fields data metadata hmd
              exact ⟨hdv, hhas, vc, li, hvc, rfl⟩

/-- Unfolding of `ParseString` for a non-empty string through its
segment split. -/
theorem ParseString_eq (consent core : List Char) (rest : List (List Char))
    (hne : consent ≠ []) (hsplit : splitSeg consent = core :: rest) :
    ParseString consent =
      match decodeSegment core with
      | none => none
      | some coreDecoded =>
        match Parse coreDecoded with
        | none => none
        | some metadata => findDisclosed metadata rest := by
  unfold ParseString parseCoreAndDisclosedVendors
  rw [if_neg (by simpa [List.isEmpty_iff] using hne), hsplit]

/-- A string splitting into at least two segments is non-empty. -/
theorem splitSeg_two_ne_nil (consent : List Char) (core seg : List Char)
    (rest : List (List Char)) (h : splitSeg consent = core :: seg :: rest) :
    consent ≠ [] := by
  intro e
  subst e
  simp [splitSeg] at h

/-- Reading the first eight bits of a buffer of genuine bytes yields its
first byte. -/
theorem readBits_byte0 (data : Bytes) (h : data.headD 0 < 256) :
    readBits data 0 8 = data.headD 0 := by
  cases data with
  | nil => rfl
  | cons b rest =>
    simp only [List.headD_cons] at h ⊢
    have e : ∀ m k : Nat, (if m % 2 = 1 then k else 0) = k * (m % 2) := by
      intro m k
      rcases Nat.mod_two_eq_zero_or_one m with hm | hm <;> simp [hm]
    simp only [readBits, show List.range 8 = [0, 1, 2, 3, 4, 5, 6, 7] from rfl, List.foldl,
      isSet, Nat.zero_add]
    norm_num [List.getD]
    simp only [e]
    omega

/-! The claims. -/

/-- C9: `ParseString` on the fixed sample Core String
`COyiILmOyiILmADACHENAPCAAAAAAAAAAAAAE5QBgALgAqgD8AQACSwEygJyAAAAAA`
succeeds, and the result reports `VendorListVersion() = 15`. -/
theorem c9_fixture_vendor_list_version :
    ∃ m, ParseString sampleCore = some m ∧ VendorListVersion m = 15 :=
  ⟨sampleCoreMeta, by decide, by decide⟩

/-- C10: every non-empty consent string beginning with the separator
fails: the empty first segment is taken as the Core String and
`decodeSegment` rejects an empty segment string. -/
theorem c10_leading_dot_fails (consent : List Char)
    (h : consent.head? = some '.') : ParseString consent = none := by
  cases consent with
  | nil => simp at h
  | cons c rest =>
    have hc : c = '.' := by simpa using h
    subst hc
    unfold ParseString parseCoreAndDisclosedVendors
    rw [if_neg (by simp)]
    have hs : splitSeg ('.' :: rest) = [] :: splitSeg rest := by
      rw [splitSeg, if_pos rfl]
    simp only [hs]
    simp [decodeSegment]

/-- Witness for C10 at the one-character string consisting of a dot. -/
theorem c10_witness :
    (['.'] : List Char).head? = some '.' ∧ ParseString ['.'] = none :=
  ⟨rfl, c10_leading_dot_fails ['.'] rfl⟩

/-- C3: a Core-only consent string (no separator anywhere) that parses
successfully reports no disclosed vendors: `HasDisclosedVendors()` is
false and `VendorDisclosed(id)` is false for every id. -/
theorem c3_core_only_no_disclosed (consent : List Char) (m : ConsentMetadata)
    (hdot : '.' ∉ consent) (h : ParseString consent = some m) :
    HasDisclosedVendors m = false ∧ ∀ id : Nat, VendorDisclosed m id = false := by
  have hne : consent ≠ [] := by
    intro e
    subst e
    simp [ParseString] at h
  rw [ParseString_eq consent consent [] hne (splitSeg_no_dot consent hdot)] at h
  rcases hcb : decodeSegment consent with _ | cb
  · simp only [hcb] at h; exact absurd h (by simp)
  · simp only [hcb] at h
    rcases hp : Parse cb with _ | md
    · simp only [hp] at h; exact absurd h (by simp)
    · simp only [hp] at h
      simp only [findDisclosed] at h
      have hmm := Option.some.inj h
      obtain ⟨hdv, hhas, _⟩ := Parse_some cb md hp
      subst hmm
      exact ⟨hhas, fun id => by simp [VendorDisclosed, hdv]⟩

/-- Witness for C3 at the sample Core String. -/
theorem c3_witness :
    ('.' ∉ sampleCore) ∧ HasDisclosedVendors sampleCoreMeta = false ∧
      ∀ id : Nat, VendorDisclosed sampleCoreMeta id = false :=
  ⟨by decide,
   (c3_core_only_no_disclosed sampleCore sampleCoreMeta (by decide) (by decide)).1,
   (c3_core_only_no_disclosed sampleCore sampleCoreMeta (by decide) (by decide)).2⟩

/-- C5: every successful `Parse` of a core-string buffer chose the
vendor-consent encoding by the single bit at absolute offset 229
(1 = RangeSection, 0 = BitField) and decoded that vendor set starting at
absolute offset 230. -/
theorem c5_encoding_bit_229 (data : Bytes) (m : ConsentMetadata)
    (h : Parse data = some m) :
    ∃ r fin,
      (if isSet data 229 then parseRangeSection data m.maxVendorID 230
       else parseBitField data m.maxVendorID 230) = some (r, fin) ∧
      m.vendorConsents = some r :=
  (Parse_some data m h).2.2

/-- Witness for C5 at the decoded sample Core String. -/
theorem c5_witness :
    Parse sampleCoreBytes = some sampleCoreMeta ∧
    ∃ r fin,
      (if isSet sampleCoreBytes 229 then
         parseRangeSection sampleCoreBytes sampleCoreMeta.maxVendorID 230
       else parseBitField sampleCoreBytes sampleCoreMeta.maxVendorID 230) = some (r, fin) ∧
      sampleCoreMeta.vendorConsents = some r :=
  ⟨by decide, c5_encoding_bit_229 sampleCoreBytes sampleCoreMeta (by decide)⟩

/-- C8: appending a trailing separator to a consent string that does not
already end in one changes nothing: `ParseString` returns the very same
result (so the two parses both fail, or both succeed and agree on every
accessor). -/
theorem c8_trailing_dot_tolerated (s : List Char) (h : s.getLast? ≠ some '.') :
    ParseString (s ++ ['.']) = ParseString s := by
  cases s with
  | nil => decide
  | cons c rest =>
    obtain ⟨core, segs, hsplit⟩ : ∃ core segs, splitSeg (c :: rest) = core :: segs := by
      rcases hx : splitSeg (c :: rest) with _ | ⟨core, segs⟩
      · exact absurd hx (splitSeg_ne_nil _)
      · exact ⟨core, segs, rfl⟩
    have hsplit2 : splitSeg ((c :: rest) ++ ['.']) = core :: (segs ++ [[]]) := by
      rw [splitSeg_append_dot (c :: rest), hsplit]
      rfl
    rw [ParseString_eq _ core (segs ++ [[]]) (by simp) hsplit2,
        ParseString_eq _ core segs (by simp) hsplit]
    rcases hcb : decodeSegment core with _ | cb
    · simp only [hcb]
    · simp only [hcb]
      rcases hp : Parse cb with _ | md
      · simp only [hp]
      · simp only [hp]
        exact findDisclosed_append_empty md segs

/-- Witness for C8 at the one-character string C. -/
theorem c8_witness :
    (['C'] : List Char).getLast? ≠ some '.' ∧
      ParseString (['C'] ++ ['.']) = ParseString ['C'] :=
  ⟨by decide, c8_trailing_dot_tolerated ['C'] (by decide)⟩

/-- C1 counterexample: the claim asserts the parse aborts on a malformed
later segment "regardless of whether a valid Disclosed-Vendors segment
appears earlier", but the scan stops at the first type-1 segment; here
the final segment is a single exclamation mark, which is not valid
base64url, yet `ParseString` succeeds because a valid Disclosed-Vendors
segment precedes it. -/
theorem c1_counterexample :
    splitSeg (sampleCore ++ '.' :: sampleDvSegment ++ '.' :: ['!']) =
      [sampleCore, sampleDvSegment, ['!']] ∧
    decodeSegment ['!'] = none ∧
    (ParseString (sampleCore ++ '.' :: sampleDvSegment ++ '.' :: ['!'])).isSome = true :=
  ⟨by decide, by decide, by decide⟩

/-- C1 as amended: a non-empty trailing segment that fails base64url
decoding, or whose decoded bytes are too short for a type tag, aborts the
whole parse — provided every earlier trailing segment is empty or decodes
to a segment of type other than 1 (once a Disclosed-Vendors segment is
recorded, the scan stops and later segments are never examined). -/
theorem c1_malformed_segment_aborts (consent core bad : List Char)
    (pre post : List (List Char)) (coreBytes : Bytes) (md : ConsentMetadata)
    (hsplit : splitSeg consent = core :: (pre ++ bad :: post))
    (hpre : skippable pre)
    (hbadne : bad ≠ [])
    (hbad : decodeSegment bad = none ∨
      ∃ b, decodeSegment bad = some b ∧ getSegmentType b = none)
    (hcore : decodeSegment core = some coreBytes)
    (hparse : Parse coreBytes = some md) :
    ParseString consent = none := by
  have hne : consent ≠ [] := by
    intro e
    subst e
    have h2 := congrArg List.length hsplit
    simp [splitSeg, List.length_append] at h2
  rw [ParseString_eq consent core (pre ++ bad :: post) hne hsplit]
  simp only [hcore, hparse]
  rw [findDisclosed_skip md pre (bad :: post) hpre]
  exact findDisclosed_bad md bad post hbadne hbad

/-- Witness for C1's amended statement: the sample Core String followed
by a single malformed segment. -/
theorem c1_witness :
    decodeSegment ['!'] = none ∧ ParseString (sampleCore ++ '.' :: ['!']) = none :=
  ⟨by decide,
   c1_malformed_segment_aborts (sampleCore ++ '.' :: ['!']) sampleCore ['!'] [] []
     sampleCoreBytes sampleCoreMeta (by decide) (by simp [skippable]) (by decide)
     (Or.inl (by decide)) (by decide) (by decide)⟩

/-- C4: when the trailing segments consist of a skippable prefix, a first
valid type-1 segment, and arbitrary further segments (which may include
more type-1 segments), `ParseString` records exactly the vendor set of
that first type-1 segment: `VendorDisclosed` and
`VendorDisclosedMaxVendorId` reflect only the first occurrence. -/
theorem c4_first_type1_wins (consent core d : List Char)
    (pre post : List (List Char)) (coreBytes dBytes : Bytes)
    (md : ConsentMetadata) (dv : VendorResolver)
    (hsplit : splitSeg consent = core :: (pre ++ d :: post))
    (hpre : skippable pre)
    (hcore : decodeSegment core = some coreBytes)
    (hparse : Parse coreBytes = some md)
    (hd : decodeSegment d = some dBytes)
    (ht : getSegmentType dBytes = some 1)
    (hdv : parseDisclosedVendorsSegment dBytes = some dv) :
    ∃ m, ParseString consent = some m ∧
      m.disclosedVendors = some dv ∧
      (∀ id, VendorDisclosed m id = dv.contains id) ∧
      VendorDisclosedMaxVendorId m = dv.maxID := by
  have hne : consent ≠ [] := by
    intro e
    subst e
    have h2 := congrArg List.length hsplit
    simp [splitSeg, List.length_append] at h2
  refine ⟨{ md with disclosedVendors := some dv, hasDisclosedVendors := true },
    ?_, rfl, fun id => rfl, rfl⟩
  rw [ParseString_eq consent core (pre ++ d :: post) hne hsplit]
  simp only [hcore, hparse]
  rw [findDisclosed_skip md pre (d :: post) hpre]
  exact findDisclosed_found md d post dBytes dv hd ht hdv

/-- Witness for C4: the sample Core String followed by two different
valid type-1 segments; the recorded vendor set is the first segment's. -/
theorem c4_witness :
    getSegmentType sampleDvBytes = some 1 ∧
    getSegmentType sampleDv2Bytes = some 1 ∧
    ∃ m,
      ParseString (sampleCore ++ '.' :: sampleDvSegment ++ '.' :: sampleDvSegment2) = some m ∧
      m.disclosedVendors = some sampleDvResolver ∧
      (∀ id, VendorDisclosed m id = sampleDvResolver.contains id) ∧
      VendorDisclosedMaxVendorId m = sampleDvResolver.maxID :=
  ⟨by decide, by decide,
   c4_first_type1_wins (sampleCore ++ '.' :: sampleDvSegment ++ '.' :: sampleDvSegment2)
     sampleCore sampleDvSegment [] [sampleDvSegment2] sampleCoreBytes sampleDvBytes
     sampleCoreMeta sampleDvResolver (by decide) (by simp [skippable]) (by decide)
     (by decide) (by decide) (by decide) (by decide)⟩

/-- C2: for a fixed Core String, a fixed valid Disclosed-Vendors segment
and a fixed valid Publisher-TC segment, both orderings of the two
trailing segments parse successfully and report identical
`VendorDisclosed` for every vendor id, identical
`VendorDisclosedMaxVendorId`, and identical `HasDisclosedVendors`. -/
theorem c2_segment_order_independent (core d p : List Char)
    (coreBytes dBytes pBytes : Bytes) (md : ConsentMetadata) (dv : VendorResolver)
    (hcore : decodeSegment core = some coreBytes)
    (hparse : Parse coreBytes = some md)
    (hd : decodeSegment d = some dBytes)
    (hdt : getSegmentType dBytes = some 1)
    (hdv : parseDisclosedVendorsSegment dBytes = some dv)
    (hp : decodeSegment p = some pBytes)
    (hpt : getSegmentType pBytes = some 3) :
    ∃ m1 m2,
      ParseString (core ++ '.' :: (d ++ '.' :: p)) = some m1 ∧
      ParseString (core ++ '.' :: (p ++ '.' :: d)) = some m2 ∧
      (∀ id, VendorDisclosed m1 id = VendorDisclosed m2 id) ∧
      VendorDisclosedMaxVendorId m1 = VendorDisclosedMaxVendorId m2 ∧
      HasDisclosedVendors m1 = HasDisclosedVendors m2 := by
  have hcoreDot : '.' ∉ core := decodeSegment_no_dot core coreBytes hcore
  have hdDot : '.' ∉ d := decodeSegment_no_dot d dBytes hd
  have hpDot : '.' ∉ p := decodeSegment_no_dot p pBytes hp
  have hsplit1 : splitSeg (core ++ '.' :: (d ++ '.' :: p)) = [core, d, p] := by
    rw [splitSeg_append_sep core (d ++ '.' :: p) hcoreDot,
      splitSeg_append_sep d p hdDot, splitSeg_no_dot p hpDot]
  have hsplit2 : splitSeg (core ++ '.' :: (p ++ '.' :: d)) = [core, p, d] := by
    rw [splitSeg_append_sep core (p ++ '.' :: d) hcoreDot,
      splitSeg_append_sep p d hpDot, splitSeg_no_dot d hdDot]
  refine ⟨{ md with disclosedVendors := some dv, hasDisclosedVendors := true },
    { md with disclosedVendors := some dv, hasDisclosedVendors := true },
    ?_, ?_, fun id => rfl, rfl, rfl⟩
  · rw [ParseString_eq _ core [d, p] (by simp) hsplit1]
    simp only [hcore, hparse]
    exact findDisclosed_found md d [p] dBytes dv hd hdt hdv
  · rw [ParseString_eq _ core [p, d] (by simp) hsplit2]
    simp only [hcore, hparse]
    have hskip : skippable [p] := by
      intro seg hseg
      rcases List.mem_singleton.mp hseg with rfl
      exact Or.inr ⟨pBytes, 3, hp, hpt, by omega⟩
    rw [show ([p, d] : List (List Char)) = [p] ++ [d] from rfl,
      findDisclosed_skip md [p] [d] hskip]
    exact findDisclosed_found md d [] dBytes dv hd hdt hdv

/-- Witness for C2 at the fixtures of the repository's order test: the
second Core String, the 8-byte Disclosed-Vendors segment and the minimal
Publisher-TC segment. -/
theorem c2_witness :
    getSegmentType sampleDv2Bytes = some 1 ∧
    getSegmentType samplePubBytes = some 3 ∧
    ∃ m1 m2,
      ParseString (sampleCore2 ++ '.' :: sampleDvSegment2 ++ '.' :: samplePubSegment)
        = some m1 ∧
      ParseString (sampleCore2 ++ '.' :: samplePubSegment ++ '.' :: sampleDvSegment2)
        = some m2 ∧
      (∀ id, VendorDisclosed m1 id = VendorDisclosed m2 id) ∧
      VendorDisclosedMaxVendorId m1 = VendorDisclosedMaxVendorId m2 ∧
      HasDisclosedVendors m1 = HasDisclosedVendors m2 :=
  ⟨by decide, by decide,
   c2_segment_order_independent sampleCore2 sampleDvSegment2 samplePubSegment
     sampleCore2Bytes sampleDv2Bytes samplePubBytes sampleCore2Meta sampleDv2Resolver
     (by decide) (by decide) (by decide) (by decide) (by decide) (by decide) (by decide)⟩

/-- C6: the Disclosed-Vendors segment decoder rejects buffers of fewer
than 3 bytes and buffers whose top 3 bits are not 1; otherwise it reads
the 16-bit max vendor ID at bits 3..19 and dispatches on the
encoding-type bit 19, decoding the vendor set from bit 20. -/
theorem c6_disclosed_segment_layout (data : Bytes) (hb : ∀ b ∈ data, b < 256) :
    (data.length < 3 → parseDisclosedVendorsSegment data = none) ∧
    (3 ≤ data.length → data.headD 0 / 32 ≠ 1 →
      parseDisclosedVendorsSegment data = none) ∧
    (3 ≤ data.length → data.headD 0 / 32 = 1 →
      parseDisclosedVendorsSegment data =
        if isSet data 19 then
          Option.map Prod.fst (parseRangeSection data (readBits data 3 16) 20)
        else Option.map Prod.fst (parseBitField data (readBits data 3 16) 20)) := by
  refine ⟨?_, ?_, ?_⟩
  · intro hlt
    unfold parseDisclosedVendorsSegment
    by_cases h0 : data.length = 0
    · rw [if_pos h0]
    · rw [if_neg h0, if_pos hlt]
  · intro hlen htag
    have hhead : data.headD 0 < 256 := by
      cases data with
      | nil => simp at hlen
      | cons b rest => exact hb b (List.mem_cons_self _ _)
    have h8 : parseBits data 0 8 = some (readBits data 0 8) := by
      unfold parseBits
      rw [if_pos (by omega)]
    unfold parseDisclosedVendorsSegment
    rw [if_neg (by omega), if_neg (by omega)]
    simp only [h8]
    rw [readBits_byte0 data hhead, if_pos htag]
  · intro hlen htag
    have hhead : data.headD 0 < 256 := by
      cases data with
      | nil => simp at hlen
      | cons b rest => exact hb b (List.mem_cons_self _ _)
    have h8 : parseBits data 0 8 = some (readBits data 0 8) := by
      unfold parseBits
      rw [if_pos (by omega)]
    have h16 : parseBits data 3 16 = some (readBits data 3 16) := by
      unfold parseBits
      rw [if_pos (by omega)]
    unfold parseDisclosedVendorsSegment
    rw [if_neg (by omega), if_neg (by omega)]
    simp only [h8]
    rw [readBits_byte0 data hhead, if_neg (not_not_intro htag)]
    simp only [h16]
    by_cases henc : isSet data 19 = true
    · rw [if_pos henc, if_pos henc]
      rcases hr : parseRangeSection data (readBits data 3 16) 20 with _ | ⟨r, fin⟩ <;>
        simp [hr]
    · rw [if_neg henc, if_neg henc]
      rcases hr : parseBitField data (readBits data 3 16) 20 with _ | ⟨r, fin⟩ <;>
        simp [hr]

/-- Witness for C6 at the 4-byte fixture segment. -/
theorem c6_witness :
    3 ≤ ([32, 1, 74, 128] : Bytes).length ∧
    ([32, 1, 74, 128] : Bytes).headD 0 / 32 = 1 ∧
    parseDisclosedVendorsSegment [32, 1, 74, 128] =
      (if isSet [32, 1, 74, 128] 19 then
         Option.map Prod.fst (parseRangeSection [32, 1, 74, 128]
           (readBits [32, 1, 74, 128] 3 16) 20)
       else Option.map Prod.fst (parseBitField [32, 1, 74, 128]
           (readBits [32, 1, 74, 128] 3 16) 20)) :=
  ⟨by decide, by decide,
   (c6_disclosed_segment_layout [32, 1, 74, 128] (by decide)).2.2 (by decide) (by decide)⟩

/-- C7: the sample Core String followed by the Disclosed-Vendors segment
whose decoded bytes are 0x20, 0x01, 0x4a, 0x80 (type 1, max vendor ID 10,
BitField mode) discloses exactly vendors 1, 3 and 5 among 1..6, and
`HasDisclosedVendors()` is true. -/
theorem c7_disclosed_presence :
    decodeSegment sampleDvSegment = some [32, 1, 74, 128] ∧
    ∃ m, ParseString (sampleCore ++ '.' :: sampleDvSegment) = some m ∧
      VendorDisclosed m 1 = true ∧ VendorDisclosed m 2 = false ∧
      VendorDisclosed m 3 = true ∧ VendorDisclosed m 4 = false ∧
      VendorDisclosed m 5 = true ∧ VendorDisclosed m 6 = false ∧
      HasDisclosedVendors m = true :=
  ⟨by decide, sampleFullMeta, by decide, by decide, by decide, by decide, by decide,
   by decide, by decide, by decide⟩

end GoGdpr
